import Mathlib

/-!
Verification of the calendar-utility functions of `src/core-js-dates-tasks.js`
against their natural-language specification.

The JavaScript functions operate on `Date` values. We embed them shallowly:
a point in time at day granularity is its day number (an `Int`, with
1970-01-01 as day 0, proleptic Gregorian calendar, matching ECMAScript
`MakeDay`); an instant is a record of UTC components. Conversions between
civil dates (year, month, day) and day numbers follow the standard
civil-from-days / days-from-civil algorithms, which agree with ECMAScript
date arithmetic. `Int` division `/` and `%` are floor division and modulus
(`Int.ediv` / `Int.emod`), which matches the mathematical formulation of
those algorithms.

The JavaScript `Date(year, monthIndex, day)` constructor semantics are
modelled by `jsMakeDay`, including its normalization of out-of-range month
indices and days and its mapping of two-digit years to 1900-1999.
-/

namespace CoreJsDates

/-- Day number (1970-01-01 = day 0) of the proleptic-Gregorian civil date
`(y, m, d)` with `m` the 1-based month. Days out of range are normalized
linearly (day `d` stands for day 1 of the month plus `d - 1` days), exactly
as ECMAScript `MakeDay` does. -/
def daysFromCivil (y m d : Int) : Int :=
  let yy := if m ≤ 2 then y - 1 else y
  let era := yy / 400
  let yoe := yy % 400
  let mp := (m + 9) % 12
  let doy := (153 * mp + 2) / 5 + d - 1
  let doe := yoe * 365 + yoe / 4 - yoe / 100 + doy
  era * 146097 + doe - 719468

/-- Civil date `(year, month, day)` (1-based month) of a day number,
inverse of `daysFromCivil`. -/
def civilFromDays (z : Int) : Int × Int × Int :=
  let z2 := z + 719468
  let era := z2 / 146097
  let doe := z2 % 146097
  let yoe := (doe - doe / 1460 + doe / 36524 - doe / 146096) / 365
  let y := yoe + era * 400
  let doy := doe - (365 * yoe + yoe / 4 - yoe / 100)
  let mp := (5 * doy + 2) / 153
  let d := doy - (153 * mp + 2) / 5 + 1
  let m := if mp < 10 then mp + 3 else mp - 9
  (if m ≤ 2 then y + 1 else y, m, d)

/-- Model of JavaScript `Date.prototype.getFullYear` on a day number. -/
def yearOfDay (z : Int) : Int := (civilFromDays z).1

/-- Model of `Date.prototype.getMonth` plus one: the 1-based month of a day
number (the JavaScript method returns the 0-based index, `monthOfDay z - 1`). -/
def monthOfDay (z : Int) : Int := (civilFromDays z).2.1

/-- Model of `Date.prototype.getDate` on a day number: the day of the month. -/
def domOfDay (z : Int) : Int := (civilFromDays z).2.2

/-- Model of `Date.prototype.getDay` on a day number: the weekday,
0 = Sunday .. 6 = Saturday. Day 0 (1970-01-01) was a Thursday (= 4). -/
def getDay (z : Int) : Int := (z + 4) % 7

/-- The `Date` constructor's two-digit-year rule: an integer year between 0
and 99 stands for 1900 + that year (ECMAScript `Date(y, m, d)` semantics). -/
def jsYear (y : Int) : Int := if 0 ≤ y ∧ y ≤ 99 then y + 1900 else y

/-- Day number produced by `new Date(y, mi, d)` (time fields zero): `mi` is
the 0-based month index, normalized into the year (ECMAScript `MakeDay`),
after the two-digit-year adjustment `jsYear`. -/
def jsMakeDay (y mi d : Int) : Int :=
  daysFromCivil (jsYear y + mi / 12) (mi % 12 + 1) 1 + (d - 1)

/-!
### isLeapYear (source lines 339-342)

```js
function isLeapYear(date) {
  const a = new Date(date);
  return a.getFullYear() % 4 === 0;
}
```

The function only tests whether the remainder is zero, and the JavaScript
remainder of an integer by 4 is zero exactly when 4 divides it, which is
also when the floor modulus `% 4` below is zero.
-/

def isLeapYear (y : Int) : Bool := y % 4 == 0

/-!
### isDateInPeriod (source lines 143-151)

```js
function isDateInPeriod(date, period) {
  const arr1 = date.split('-');
  ...
  const a = new Date(arr1[0], arr1[1], arr1[2], 0, 0, 0);
  const b = new Date(arr2[0], arr2[1], arr2[2], 0, 0, 0);
  const c = new Date(arr3[0], arr3[1], arr3[2], 0, 0, 0);
  return a >= b && a <= c;
}
```

Each argument is a `'YYYY-MM-DD'` string, modelled as its numeric triple
`(y, m, d)`. The 1-based month `m` of the string is passed to the `Date`
constructor, which reads it as a 0-based month index: every parsed date is
shifted by one month (with day normalization). All three dates carry time
00:00:00, so comparing the `Date` values is comparing day numbers.
-/

def isDateInPeriod (date pstart pend : Int × Int × Int) : Bool :=
  let a := jsMakeDay date.1 date.2.1 date.2.2
  let b := jsMakeDay pstart.1 pstart.2.1 pstart.2.2
  let c := jsMakeDay pend.1 pend.2.1 pend.2.2
  b ≤ a && a ≤ c

/-!
### formatDate (source lines 164-186)

```js
function formatDate(date) {
  const a = new Date(date);
  const a2 = a.getUTCHours() >= 12 ? 'PM' : 'AM';
  const a3 = a.getUTCMinutes() >= 9 ? `${m}` : `0${m}`;
  const a4 = a.getUTCSeconds() >= 9 ? `${s}` : `0${s}`;
  let b;
  if (a2 === 'PM') {
    if (a.getUTCHours() === 12 && a.getUTCMinutes() === 59 && a.getUTCMinutes() === 59) {
      b = `${a.getUTCHours()}:${a3}:${a4}`;
    } else {
      b = `${a.getUTCHours() - 12}:${a3}:${a4}`;
    }
  } else {
    b = `${a.getUTCHours()}:${a3}:${a4}`;
  }
  return `${month+1}/${day}/${year}, ${b} ${a2}`;
}
```

The input is modelled by its UTC components. The guard of the inner `if`
(which re-compares the minutes instead of the seconds) is split out as
`formatDateLiteralGuard` so that its reachability can be stated.
-/

/-- Guard of the branch of `formatDate` that prints the PM hour unadjusted:
`hours === 12 && minutes === 59 && minutes === 59` as written in the source
(the third conjunct repeats the minute comparison). -/
def formatDateLiteralGuard (h mi : Nat) : Bool :=
  h == 12 && mi == 59 && mi == 59

/-- The source's padding of minutes and seconds: the ternary
`x >= 9 ? x : '0' + x` (note the boundary, 9 itself is left unpadded). -/
def padMinSec (x : Nat) : String :=
  if 9 ≤ x then toString x else "0" ++ toString x

def formatDate (y mo d h mi s : Nat) : String :=
  let a2 := if 12 ≤ h then "PM" else "AM"
  let a3 := padMinSec mi
  let a4 := padMinSec s
  let b :=
    if a2 = "PM" then
      if formatDateLiteralGuard h mi then
        toString h ++ ":" ++ a3 ++ ":" ++ a4
      else
        toString (h - 12) ++ ":" ++ a3 ++ ":" ++ a4
    else
      toString h ++ ":" ++ a3 ++ ":" ++ a4
  toString mo ++ "/" ++ toString d ++ "/" ++ toString y ++ ", " ++ b ++ " " ++ a2

/-!
### dateToTimestamp (source lines 20-22) and getCountDaysOnPeriod (119-124)

```js
function getCountDaysOnPeriod(dateStart, dateEnd) {
  const a = new Date(dateStart);
  const b = new Date(dateEnd);
  const summ = (b - a) / 1000 / 60 / 60 / 24;
  return summ + 1;
}
```

An ISO 8601 `Z` date-time string is modelled as its UTC components
(`Instant`); `new Date(s).getTime()` is the epoch-millisecond timestamp
`dateToTimestamp`. The JavaScript divisions are floating-point; they are
modelled as exact rational divisions, which coincides with the IEEE result
whenever every intermediate quotient is exactly representable — in
particular at every input used in a theorem below (day-aligned differences
and the half-day counterexample, all of whose quotients are exact). -/

structure Instant where
  year : Int
  month : Int
  day : Int
  hour : Int
  minute : Int
  second : Int
  msec : Int

/-- Epoch milliseconds of an instant given by UTC components: the value of
`new Date(s).getTime()` for the ISO string with those components. -/
def dateToTimestamp (t : Instant) : Int :=
  daysFromCivil t.year t.month t.day * 86400000 +
    t.hour * 3600000 + t.minute * 60000 + t.second * 1000 + t.msec

def getCountDaysOnPeriod (dateStart dateEnd : Instant) : ℚ :=
  ((dateToTimestamp dateEnd - dateToTimestamp dateStart : Int) : ℚ)
    / 1000 / 60 / 60 / 24 + 1

/-!
### getCountWeekendsInMonth (source lines 200-211)

```js
function getCountWeekendsInMonth(month, year) {
  const a = new Date(year, month - 1, 1);
  const b = new Date(year, month, 0);
  let summ = 0;
  for (let i = a; i <= b; i.setDate(i.getDate() + 1)) {
    const a4 = i.getDay();
    if (a4 === 0 || a4 === 6) { summ += 1; }
  }
  return summ;
}
```

All dates in the loop are at local midnight, so `i <= b` is comparison of
day numbers and the loop runs exactly `b - a + 1` times (zero times when
`b < a`). -/

def getCountWeekendsInMonthAux : Nat → Int → Nat → Nat
  | 0, _, summ => summ
  | rem + 1, i, summ =>
      getCountWeekendsInMonthAux rem (i + 1)
        (if getDay i = 0 ∨ getDay i = 6 then summ + 1 else summ)

def getCountWeekendsInMonth (month year : Int) : Nat :=
  getCountWeekendsInMonthAux
    ((jsMakeDay year month 0 - jsMakeDay year (month - 1) 1 + 1).toNat)
    (jsMakeDay year (month - 1) 1) 0

/-- Number of weekend days among the `n` consecutive days starting at day
number `i` (specification-side counter for `getCountWeekendsInMonth`). -/
def weekendCount : Int → Nat → Nat
  | _, 0 => 0
  | i, n + 1 =>
      (if getDay i = 0 ∨ getDay i = 6 then 1 else 0) + weekendCount (i + 1) n

/-!
### getNextFriday (source lines 79-90)

```js
function getNextFriday(date) {
  const a = new Date(date);
  const b = new Date(a.getFullYear(), a.getMonth(), a.getDate() + 7);
  for (let i = a, n = 0; i <= b; i.setDate(i.getDate() + 1)) {
    const a4 = i.getDay();
    if (a4 === 5 && n > 0) {
      return i;
    }
    n += 1;
  }
  return a;
}
```

The input date is modelled by its calendar components: year `y`, 0-based
month index `mo` (= `getMonth()`), day of month `d`, and time of day
`t` milliseconds past local midnight; its day number is
`daysFromCivil y (mo + 1) d`. The loop variable `i` keeps the input's
time of day while `b` is at midnight, so the loop guard `i <= b` is
`i * 86400000 + t ≤ b * 86400000` on day numbers. `i` aliases `a` (the
`let i = a` copies the reference), so the trailing `return a` returns the
day the mutated loop variable reached when the guard failed — the embedding
returns that day number in the fuel-exhausted and guard-failed cases alike.
The loop body runs at most 8 times before a `return`, so fuel 9 is never
exhausted. -/

def getNextFridayAux (b : Int) (t : Nat) : Nat → Int → Nat → Int
  | 0, i, _ => i
  | fuel + 1, i, n =>
      if i * 86400000 + (t : Int) ≤ b * 86400000 then
        if getDay i = 5 ∧ 0 < n then i
        else getNextFridayAux b t fuel (i + 1) (n + 1)
      else i

def getNextFriday (y mo d : Int) (t : Nat) : Int :=
  getNextFridayAux (jsMakeDay y mo (d + 7)) t 9 (daysFromCivil y (mo + 1) d) 0

/-- Offset, between 1 and 7, from day number `z` to the first strictly later
Friday (specification-side value for `getNextFriday`). -/
def fridayOffset (z : Int) : Nat :=
  (if (1 - z) % 7 = 0 then 7 else (1 - z) % 7).toNat

/-!
### getNextFridayThe13th (source lines 245-257)

```js
function getNextFridayThe13th(date) {
  const a = new Date(date);
  const b = new Date(a.getFullYear() + 1, 0, 0);
  let c;
  for (let i = a; i <= b; i.setDate(i.getDate() + 1)) {
    const a4 = i.getDay();
    const a5 = i.getDate();
    if (a4 === 5 && a5 === 13) {
      return new Date(i.getFullYear(), i.getMonth(), a5);
    }
  }
  return c;
}
```

The input is modelled at day granularity (local midnight), as day number
`z`. `b = new Date(year + 1, 0, 0)` is December 31 of the input's calendar
year (day 0 of January next year), so the scan covers `[z, b]` — not one
year ahead — and runs `b - z + 1` times (zero times when `b < z`). The
variable `c` is never assigned, so the fall-through `return c` yields
`undefined`, modelled as `none`. On success the source rebuilds the found
date from its year, month and day fields through the `Date` constructor
(`jsMakeDay`, two-digit-year rule included). -/

def getNextFridayThe13thAux : Nat → Int → Option Int
  | 0, _ => none
  | fuel + 1, i =>
      if getDay i = 5 ∧ domOfDay i = 13 then
        some (jsMakeDay (yearOfDay i) (monthOfDay i - 1) (domOfDay i))
      else getNextFridayThe13thAux fuel (i + 1)

def getNextFridayThe13th (z : Int) : Option Int :=
  getNextFridayThe13thAux ((jsMakeDay (yearOfDay z + 1) 0 0 - z + 1).toNat) z

/-!
### getWorkSchedule (source lines 304-325)

```js
function getWorkSchedule(period, countWorkDays, countOffDays) {
  const a = period.start.split('-');
  const b = period.end.split('-');
  const aa = new Date(a[2], a[1] - 1, a[0]);
  const bb = new Date(b[2], b[1] - 1, b[0]);
  const mass = [];
  for (let i = aa, n2 = 1; i <= bb; i.setDate(i.getDate() + 1)) {
    const day = i.getDate() <= 9 ? `0${day}` : day;
    const month = i.getMonth() + 1 <= 9 ? `0${month}` : month;
    if (n2 <= countWorkDays) {
      mass.push(`${day}-${month}-${i.getFullYear()}`);
      n2 += 1;
    } else if (n2 > countWorkDays + countOffDays) {
      mass.push(`${day}-${month}-${i.getFullYear()}`);
      n2 = 2;
    } else if (n2 > countWorkDays && n2 <= countWorkDays + countOffDays) {
      n2 += 1;
    }
  }
  return mass;
}
```

The period endpoints are `'DD-MM-YYYY'` strings, modelled as numeric
triples; here the constructor receives `month - 1`, the correct 0-based
index. All dates are at local midnight, so the guard `i <= bb` compares day
numbers and the loop runs `bb - aa + 1` times. The three `else if` branches
cover all values of `n2`, so each iteration advances the day by one. -/

/-- The `'DD-MM-YYYY'` rendering of a day number, with the source's padding
(`getDate() <= 9` and `getMonth() + 1 <= 9` prepend a zero). -/
def fmtDDMMYYYY (z : Int) : String :=
  (if domOfDay z ≤ 9 then "0" ++ toString (domOfDay z) else toString (domOfDay z))
    ++ "-" ++
  (if monthOfDay z ≤ 9 then "0" ++ toString (monthOfDay z) else toString (monthOfDay z))
    ++ "-" ++ toString (yearOfDay z)

def getWorkScheduleAux (W O : Nat) : Nat → Int → Nat → List String
  | 0, _, _ => []
  | rem + 1, i, n2 =>
      if n2 ≤ W then
        fmtDDMMYYYY i :: getWorkScheduleAux W O rem (i + 1) (n2 + 1)
      else if W + O < n2 then
        fmtDDMMYYYY i :: getWorkScheduleAux W O rem (i + 1) 2
      else
        getWorkScheduleAux W O rem (i + 1) (n2 + 1)

def getWorkSchedule (d1 m1 y1 d2 m2 y2 : Int) (W O : Nat) : List String :=
  getWorkScheduleAux W O
    ((jsMakeDay y2 (m2 - 1) d2 - jsMakeDay y1 (m1 - 1) d1 + 1).toNat)
    (jsMakeDay y1 (m1 - 1) d1) 1

/-!
## Theorems
-/

theorem getCountWeekendsInMonthAux_eq (rem : Nat) :
    ∀ (i : Int) (summ : Nat),
      getCountWeekendsInMonthAux rem i summ = summ + weekendCount i rem := by
  induction rem with
  | zero => intro i summ; rfl
  | succ n ih =>
      intro i summ
      show getCountWeekendsInMonthAux n (i + 1) _ = _
      rw [ih]
      show _ = summ + ((if getDay i = 0 ∨ getDay i = 6 then 1 else 0) + weekendCount (i + 1) n)
      by_cases h : getDay i = 0 ∨ getDay i = 6
      · rw [if_pos h, if_pos h]; omega
      · rw [if_neg h, if_neg h]; omega

theorem weekendCount_congr (n : Nat) :
    ∀ i j : Int, i % 7 = j % 7 → weekendCount i n = weekendCount j n := by
  induction n with
  | zero => intro i j _; rfl
  | succ m ih =>
      intro i j h
      show (if getDay i = 0 ∨ getDay i = 6 then 1 else 0) + weekendCount (i + 1) m =
        (if getDay j = 0 ∨ getDay j = 6 then 1 else 0) + weekendCount (j + 1) m
      have hd : getDay i = getDay j := by
        simp only [getDay]; omega
      rw [hd, ih (i + 1) (j + 1) (by omega)]

theorem weekendCount_residue_bounds :
    ∀ r : Int, 0 ≤ r → r < 7 → ∀ n : Nat, 28 ≤ n → n ≤ 31 →
      8 ≤ weekendCount r n ∧ weekendCount r n ≤ 10 := by
  intro r hr0 hr1 n hn0 hn1
  interval_cases r <;> interval_cases n <;> exact ⟨by decide, by decide⟩

theorem weekendCount_bounds (i : Int) (n : Nat) (hn0 : 28 ≤ n) (hn1 : n ≤ 31) :
    8 ≤ weekendCount i n ∧ weekendCount i n ≤ 10 := by
  rw [weekendCount_congr n i (i % 7) (by omega)]
  exact weekendCount_residue_bounds (i % 7) (by omega) (by omega) n hn0 hn1

/-- Every month of every year spans 28 to 31 days, in the exact terms used
by `getCountWeekendsInMonth` (`a = new Date(year, month-1, 1)`,
`b = new Date(year, month, 0)`). -/
theorem month_span_bounds (year month : Int) (h1 : 1 ≤ month) (h2 : month ≤ 12) :
    28 ≤ jsMakeDay year month 0 - jsMakeDay year (month - 1) 1 + 1 ∧
      jsMakeDay year month 0 - jsMakeDay year (month - 1) 1 + 1 ≤ 31 := by
  simp only [jsMakeDay]
  generalize jsYear year = Y
  interval_cases month <;>
    · simp only [daysFromCivil]
      norm_num
      omega

theorem getNextFridayAux_step0 (b : Int) (t : Nat) (fuel : Nat) (i : Int)
    (hC : i * 86400000 + (t : Int) ≤ b * 86400000) :
    getNextFridayAux b t (fuel + 1) i 0 = getNextFridayAux b t fuel (i + 1) 1 := by
  show (if i * 86400000 + (t : Int) ≤ b * 86400000 then
      if getDay i = 5 ∧ 0 < 0 then i else getNextFridayAux b t fuel (i + 1) 1
    else i) = getNextFridayAux b t fuel (i + 1) 1
  rw [if_pos hC, if_neg (by simp)]

theorem getNextFridayAux_found (b : Int) (t : Nat) :
    ∀ (fuel F : Nat) (i : Int) (n : Nat), 1 ≤ n → F < fuel →
      (∀ j : Nat, j < F → getDay (i + j) ≠ 5) →
      (∀ j : Nat, j ≤ F → (i + j) * 86400000 + (t : Int) ≤ b * 86400000) →
      getDay (i + F) = 5 →
      getNextFridayAux b t fuel i n = i + F := by
  intro fuel
  induction fuel with
  | zero => intro F i n _ hF; omega
  | succ m ih =>
      intro F i n hn hF hnot hcond hfri
      show (if i * 86400000 + (t : Int) ≤ b * 86400000 then
          if getDay i = 5 ∧ 0 < n then i else getNextFridayAux b t m (i + 1) (n + 1)
        else i) = i + F
      rw [if_pos (by have h := hcond 0 (by omega); push_cast at h; omega)]
      rcases Nat.eq_zero_or_pos F with h0 | hpos
      · subst h0
        rw [if_pos ⟨by simpa using hfri, by omega⟩]
        simp
      · rw [if_neg (by
          rintro ⟨h5, -⟩
          exact hnot 0 (by omega) (by simpa using h5))]
        rw [ih (F - 1) (i + 1) (n + 1) (by omega) (by omega)
          (by
            intro j hj
            have h2 := hnot (j + 1) (by omega)
            have e : i + 1 + (j : Int) = i + ((j + 1 : Nat) : Int) := by push_cast; ring
            rw [e]; exact h2)
          (by
            intro j hj
            have h2 := hcond (j + 1) (by omega)
            have e : i + 1 + (j : Int) = i + ((j + 1 : Nat) : Int) := by push_cast; ring
            rw [e]; exact h2)
          (by
            have e : i + 1 + ((F - 1 : Nat) : Int) = i + (F : Int) := by
              omega
            rw [e]; exact hfri)]
        omega

theorem getNextFridayAux_exit (b : Int) (t : Nat) :
    ∀ (fuel F : Nat) (i : Int) (n : Nat), 1 ≤ n → F < fuel →
      (∀ j : Nat, j < F →
        getDay (i + j) ≠ 5 ∧ (i + j) * 86400000 + (t : Int) ≤ b * 86400000) →
      ¬ ((i + F) * 86400000 + (t : Int) ≤ b * 86400000) →
      getNextFridayAux b t fuel i n = i + F := by
  intro fuel
  induction fuel with
  | zero => intro F i n _ hF; omega
  | succ m ih =>
      intro F i n hn hF hall hstop
      show (if i * 86400000 + (t : Int) ≤ b * 86400000 then
          if getDay i = 5 ∧ 0 < n then i else getNextFridayAux b t m (i + 1) (n + 1)
        else i) = i + F
      rcases Nat.eq_zero_or_pos F with h0 | hpos
      · subst h0
        rw [if_neg (by push_cast at hstop ⊢; omega)]
        simp
      · rw [if_pos (by have h := (hall 0 (by omega)).2; push_cast at h; omega)]
        rw [if_neg (by
          rintro ⟨h5, -⟩
          exact (hall 0 (by omega)).1 (by simpa using h5))]
        rw [ih (F - 1) (i + 1) (n + 1) (by omega) (by omega)
          (by
            intro j hj
            have h2 := hall (j + 1) (by omega)
            have e : i + 1 + (j : Int) = i + ((j + 1 : Nat) : Int) := by push_cast; ring
            rw [e]; exact h2)
          (by
            have e : i + 1 + ((F - 1 : Nat) : Int) = i + (F : Int) := by
              omega
            rw [e]; exact hstop)]
        omega

/-- Facts about `fridayOffset`: it lies in 1..7, lands on a Friday, and is 7
exactly when the start day is itself a Friday. -/
theorem fridayOffset_facts (z : Int) :
    1 ≤ (fridayOffset z : Int) ∧ (fridayOffset z : Int) ≤ 7 ∧
      (z + fridayOffset z + 4) % 7 = 5 ∧
      ((z + 4) % 7 = 5 → (fridayOffset z : Int) = 7) := by
  rcases eq_or_ne ((1 - z) % 7) 0 with h0 | h0
  · simp only [fridayOffset, if_pos h0]
    omega
  · simp only [fridayOffset, if_neg h0]
    omega

/-- Core loop analysis of `getNextFriday`: whenever the scan bound is at
least seven days out (it always is, see `jsMakeDay_plus7_le`), the loop
returns the start day plus `fridayOffset`. The aliased `return a` after a
failed guard (`t > 0` and the start day a Friday) returns the same day the
guard-passing path would. -/
theorem getNextFridayAux_main (z b : Int) (t : Nat) (ht : t < 86400000)
    (hb : z + 7 ≤ b) :
    getNextFridayAux b t 9 z 0 = z + fridayOffset z := by
  have hstep : getNextFridayAux b t 9 z 0 = getNextFridayAux b t 8 (z + 1) 1 :=
    getNextFridayAux_step0 b t 8 z (by omega)
  rw [hstep]
  have hfz := fridayOffset_facts z
  rcases eq_or_ne ((1 - z) % 7) 0 with h0 | h0
  · have hf7 : (fridayOffset z : Int) = 7 := by
      simp only [fridayOffset, if_pos h0]; omega
    by_cases hbe : z + 7 < b ∨ t = 0
    · rw [getNextFridayAux_found b t 8 6 (z + 1) 1 (by omega) (by omega)
        (by intro j hj; simp only [getDay]; omega)
        (by intro j hj; omega)
        (by simp only [getDay]; omega)]
      omega
    · push_neg at hbe
      rw [getNextFridayAux_exit b t 8 6 (z + 1) 1 (by omega) (by omega)
        (by
          intro j hj
          refine ⟨by simp only [getDay]; omega, by omega⟩)
        (by push_cast; omega)]
      omega
  · have hfr : (fridayOffset z : Int) = (1 - z) % 7 := by
      simp only [fridayOffset, if_neg h0]; omega
    rw [getNextFridayAux_found b t 8 (fridayOffset z - 1) (z + 1) 1 (by omega)
      (by omega)
      (by intro j hj; simp only [getDay]; omega)
      (by intro j hj; omega)
      (by simp only [getDay]; omega)]
    omega

/-- The scan bound `b = new Date(y, mo, d + 7)` is at least seven days after
the input day (equality unless the two-digit-year rule moves `b` ahead by
1900 years). -/
theorem jsMakeDay_plus7_le (y mo d : Int) (hmo0 : 0 ≤ mo) (hmo1 : mo ≤ 11) :
    daysFromCivil y (mo + 1) d + 7 ≤ jsMakeDay y mo (d + 7) := by
  simp only [jsMakeDay, jsYear]
  have h1 : mo / 12 = 0 := by omega
  have h2 : mo % 12 = mo := by omega
  rw [h1, h2, add_zero]
  by_cases hy : 0 ≤ y ∧ y ≤ 99
  · simp only [if_pos hy]
    simp only [daysFromCivil]
    rcases le_or_lt (mo + 1) 2 with hm | hm
    · simp only [if_pos hm]; omega
    · simp only [if_neg (not_le.mpr hm)]; omega
  · simp only [if_neg hy]
    simp only [daysFromCivil]
    rcases le_or_lt (mo + 1) 2 with hm | hm
    · simp only [if_pos hm]; omega
    · simp only [if_neg (not_le.mpr hm)]; omega

/-- C10: `getCountWeekendsInMonth` returns between 8 and 10 weekend days for
every month 1-12 of every year (every month has 28-31 days: four full weeks
contribute 8 weekend days and the 0-3 extra days at most 2 more). -/
theorem getCountWeekendsInMonth_bounds (month year : Int)
    (h1 : 1 ≤ month) (h2 : month ≤ 12) :
    8 ≤ getCountWeekendsInMonth month year ∧ getCountWeekendsInMonth month year ≤ 10 := by
  unfold getCountWeekendsInMonth
  rw [getCountWeekendsInMonthAux_eq]
  have hs := month_span_bounds year month h1 h2
  have hw := weekendCount_bounds (jsMakeDay year (month - 1) 1)
    ((jsMakeDay year month 0 - jsMakeDay year (month - 1) 1 + 1).toNat)
    (by omega) (by omega)
  omega

/-- C10 witness: January 2024 has exactly 8 weekend days, within the proved
bounds. -/
theorem getCountWeekendsInMonth_bounds_witness :
    8 ≤ getCountWeekendsInMonth 1 2024 ∧ getCountWeekendsInMonth 1 2024 ≤ 10 :=
  getCountWeekendsInMonth_bounds 1 2024 (by norm_num) (by norm_num)

/-- C4 (counterexample): the claim says `getCountDaysOnPeriod` returns the
integer `floor((end - start) / 86400000) + 1`. For a period of one and a
half days the code returns the exact quotient `5/2`, while the claimed floor
formula gives `2`: the source divides without flooring. -/
theorem getCountDaysOnPeriod_no_floor :
    getCountDaysOnPeriod ⟨2024, 2, 1, 0, 0, 0, 0⟩ ⟨2024, 2, 2, 12, 0, 0, 0⟩ = 5 / 2 ∧
    ((dateToTimestamp ⟨2024, 2, 2, 12, 0, 0, 0⟩ -
        dateToTimestamp ⟨2024, 2, 1, 0, 0, 0, 0⟩) / 86400000 + 1 : Int) = 2 ∧
    (5 / 2 : ℚ) ≠ ((2 : Int) : ℚ) := by
  refine ⟨?_, by decide, by norm_num⟩
  show ((dateToTimestamp ⟨2024, 2, 2, 12, 0, 0, 0⟩ -
      dateToTimestamp ⟨2024, 2, 1, 0, 0, 0, 0⟩ : Int) : ℚ) / 1000 / 60 / 60 / 24 + 1 = 5 / 2
  norm_num [dateToTimestamp, daysFromCivil]

/-- C4 (amended): `getCountDaysOnPeriod` returns the exact rational
`(end - start) / 86400000 + 1` with no flooring; whenever the millisecond
difference is a whole number of days this coincides with the claimed
`floor((end - start) / 86400000) + 1`. -/
theorem getCountDaysOnPeriod_exact (dateStart dateEnd : Instant)
    (h : (86400000 : Int) ∣ dateToTimestamp dateEnd - dateToTimestamp dateStart) :
    getCountDaysOnPeriod dateStart dateEnd =
      (((dateToTimestamp dateEnd - dateToTimestamp dateStart) / 86400000 + 1 : Int) : ℚ) := by
  obtain ⟨k, hk⟩ := h
  unfold getCountDaysOnPeriod
  rw [hk, Int.mul_ediv_cancel_left _ (by norm_num)]
  push_cast
  ring

/-- C4 witness: the spec's example period 2024-02-01 to 2024-02-02 (both at
midnight UTC) has a day-aligned difference, and the count is the floor
formula's value. -/
theorem getCountDaysOnPeriod_exact_witness :
    getCountDaysOnPeriod ⟨2024, 2, 1, 0, 0, 0, 0⟩ ⟨2024, 2, 2, 0, 0, 0, 0⟩ =
      (((dateToTimestamp ⟨2024, 2, 2, 0, 0, 0, 0⟩ -
          dateToTimestamp ⟨2024, 2, 1, 0, 0, 0, 0⟩) / 86400000 + 1 : Int) : ℚ) :=
  getCountDaysOnPeriod_exact _ _ ⟨1, by decide⟩

/-- Loop invariant of `getWorkSchedule`: writing `c = W + O` for the cycle
length, at day offset `k` the counter satisfies `k + 1 = q * c + n2` with
`1 ≤ n2 ≤ c + 1`; under it the loop emits exactly the offsets whose residue
mod `c` is below `W`, in order. -/
theorem getWorkScheduleAux_eq (W O : Nat) (hW : 1 ≤ W) (hO : 1 ≤ O) (s : Int) :
    ∀ (rem k n2 q : Nat), k + 1 = q * (W + O) + n2 → 1 ≤ n2 → n2 ≤ W + O + 1 →
      getWorkScheduleAux W O rem (s + k) n2 =
        ((List.range' k rem).filter (fun j : Nat => decide (j % (W + O) < W))).map
          (fun j : Nat => fmtDDMMYYYY (s + (j : Int))) := by
  intro rem
  induction rem with
  | zero => intro k n2 q _ _ _; rfl
  | succ m ih =>
      intro k n2 q hq h1 h2
      have estep : s + (k : Int) + 1 = s + ((k + 1 : Nat) : Int) := by push_cast; ring
      have hbody : getWorkScheduleAux W O (m + 1) (s + k) n2 =
          if n2 ≤ W then
            fmtDDMMYYYY (s + k) :: getWorkScheduleAux W O m (s + (k : Int) + 1) (n2 + 1)
          else if W + O < n2 then
            fmtDDMMYYYY (s + k) :: getWorkScheduleAux W O m (s + (k : Int) + 1) 2
          else getWorkScheduleAux W O m (s + (k : Int) + 1) (n2 + 1) := rfl
      rw [hbody, List.range'_succ]
      rcases le_or_lt n2 W with hle | hgt
      · have hkmod : k % (W + O) = n2 - 1 := by
          have hk : k = (W + O) * q + (n2 - 1) := by
            have hcomm : (W + O) * q = q * (W + O) := Nat.mul_comm _ _
            omega
          rw [hk, Nat.mul_add_mod]
          exact Nat.mod_eq_of_lt (by omega)
        rw [List.filter_cons_of_pos (by simp only [decide_eq_true_eq]; omega),
          List.map_cons, if_pos hle, estep,
          ih (k + 1) (n2 + 1) q (by omega) (by omega) (by omega)]
      · rcases le_or_lt n2 (W + O) with hmid | hreset
        · have hkmod : k % (W + O) = n2 - 1 := by
            have hk : k = (W + O) * q + (n2 - 1) := by
              have hcomm : (W + O) * q = q * (W + O) := Nat.mul_comm _ _
              omega
            rw [hk, Nat.mul_add_mod]
            exact Nat.mod_eq_of_lt (by omega)
          rw [List.filter_cons_of_neg (by simp only [decide_eq_true_eq]; omega),
            if_neg (by omega), if_neg (by omega), estep,
            ih (k + 1) (n2 + 1) q (by omega) (by omega) (by omega)]
        · have hn2 : n2 = W + O + 1 := by omega
          have hkmod : k % (W + O) = 0 := by
            have hk : k = (W + O) * (q + 1) := by
              have hcomm : (W + O) * (q + 1) = q * (W + O) + (W + O) := by ring
              omega
            rw [hk, Nat.mul_mod_right]
          rw [List.filter_cons_of_pos (by simp only [decide_eq_true_eq]; omega),
            List.map_cons, if_neg (by omega), if_pos (by omega), estep,
            ih (k + 1) 2 (q + 1)
              (by
                have hcomm : (q + 1) * (W + O) = q * (W + O) + (W + O) := by ring
                omega)
              (by omega) (by omega)]

/-- C6: `getWorkSchedule` on a `'DD-MM-YYYY'` period (given as numeric
triples) with positive work-day and off-day counts returns, in ascending
date order and `'DD-MM-YYYY'` format, exactly the days of the period whose
day offset from the start satisfies `offset % (workDays + offDays) <
workDays`. -/
theorem getWorkSchedule_spec (d1 m1 y1 d2 m2 y2 : Int) (W O : Nat)
    (hW : 1 ≤ W) (hO : 1 ≤ O) :
    getWorkSchedule d1 m1 y1 d2 m2 y2 W O =
      ((List.range
          ((jsMakeDay y2 (m2 - 1) d2 - jsMakeDay y1 (m1 - 1) d1 + 1).toNat)).filter
        (fun j : Nat => decide (j % (W + O) < W))).map
        (fun j : Nat => fmtDDMMYYYY (jsMakeDay y1 (m1 - 1) d1 + (j : Int))) := by
  unfold getWorkSchedule
  have h := getWorkScheduleAux_eq W O hW hO (jsMakeDay y1 (m1 - 1) d1)
    ((jsMakeDay y2 (m2 - 1) d2 - jsMakeDay y1 (m1 - 1) d1 + 1).toNat) 0 1 0
    (by omega) (by omega) (by omega)
  rw [show jsMakeDay y1 (m1 - 1) d1 + ((0 : Nat) : Int) = jsMakeDay y1 (m1 - 1) d1 from by
    push_cast; ring] at h
  rw [← List.range_eq_range'] at h
  exact h

/-- C6 witness: the spec's example, the period 01-01-2024 to 15-01-2024 with
1 work day and 3 off days. -/
theorem getWorkSchedule_spec_witness :
    getWorkSchedule 1 1 2024 15 1 2024 1 3 =
      ((List.range
          ((jsMakeDay 2024 (1 - 1) 15 - jsMakeDay 2024 (1 - 1) 1 + 1).toNat)).filter
        (fun j : Nat => decide (j % (1 + 3) < 1))).map
        (fun j : Nat => fmtDDMMYYYY (jsMakeDay 2024 (1 - 1) 1 + (j : Int))) :=
  getWorkSchedule_spec 1 1 2024 15 1 2024 1 3 (by norm_num) (by norm_num)

/-- Sanity check against the source's documented example:
`{start: '01-01-2024', end: '15-01-2024'}, 1, 3` yields the 1st, 5th, 9th
and 13th of January 2024. -/
theorem getWorkSchedule_example :
    getWorkSchedule 1 1 2024 15 1 2024 1 3 =
      ["01-01-2024", "05-01-2024", "09-01-2024", "13-01-2024"] := by decide

theorem getNextFridayThe13thAux_spec :
    ∀ (fuel : Nat) (i : Int),
      (∀ r, getNextFridayThe13thAux fuel i = some r →
        ∃ k : Nat, k < fuel ∧ getDay (i + k) = 5 ∧ domOfDay (i + k) = 13 ∧
          (∀ j : Nat, j < k → ¬(getDay (i + j) = 5 ∧ domOfDay (i + j) = 13)) ∧
          r = jsMakeDay (yearOfDay (i + k)) (monthOfDay (i + k) - 1) (domOfDay (i + k))) ∧
      (getNextFridayThe13thAux fuel i = none →
        ∀ j : Nat, j < fuel → ¬(getDay (i + j) = 5 ∧ domOfDay (i + j) = 13)) := by
  intro fuel
  induction fuel with
  | zero =>
      intro i
      exact ⟨fun r h => by exact absurd h (by simp [getNextFridayThe13thAux]),
        fun _ j hj => absurd hj (by omega)⟩
  | succ m ih =>
      intro i
      by_cases h : getDay i = 5 ∧ domOfDay i = 13
      · have he : getNextFridayThe13thAux (m + 1) i =
            some (jsMakeDay (yearOfDay i) (monthOfDay i - 1) (domOfDay i)) := by
          show (if getDay i = 5 ∧ domOfDay i = 13 then _ else _) = _
          rw [if_pos h]
        constructor
        · intro r hr
          rw [he] at hr
          refine ⟨0, by omega, by simpa using h.1, by simpa using h.2,
            fun j hj => absurd hj (by omega), ?_⟩
          have e : i + ((0 : Nat) : Int) = i := by push_cast; ring
          rw [e]
          exact (Option.some_injective _ hr).symm
        · intro hn
          rw [he] at hn
          exact absurd hn (by simp)
      · have he : getNextFridayThe13thAux (m + 1) i = getNextFridayThe13thAux m (i + 1) := by
          show (if getDay i = 5 ∧ domOfDay i = 13 then _ else _) = _
          rw [if_neg h]
        rw [he]
        obtain ⟨ihs, ihn⟩ := ih (i + 1)
        constructor
        · intro r hr
          obtain ⟨k, hk, h5, h13, hmin, hre⟩ := ihs r hr
          have e : i + 1 + (k : Int) = i + ((k + 1 : Nat) : Int) := by push_cast; ring
          rw [e] at h5 h13 hre
          refine ⟨k + 1, by omega, h5, h13, ?_, hre⟩
          intro j hj
          rcases Nat.eq_zero_or_pos j with hj0 | hjp
          · subst hj0
            simpa using h
          · have h2 := hmin (j - 1) (by omega)
            have e2 : i + 1 + ((j - 1 : Nat) : Int) = i + (j : Int) := by omega
            rw [e2] at h2
            exact h2
        · intro hn j hj
          rcases Nat.eq_zero_or_pos j with hj0 | hjp
          · subst hj0
            simpa using h
          · have h2 := ihn hn (j - 1) (by omega)
            have e2 : i + 1 + ((j - 1 : Nat) : Int) = i + (j : Int) := by omega
            rw [e2] at h2
            exact h2

/-- C2 (amended): `getNextFridayThe13th`, started at day `z` (taken at local
midnight), scans day by day from `z` through December 31 of the calendar
year of `z` and returns the first day in that span that is the 13th of its
month and a Friday (rebuilt from its calendar fields at local midnight
through the `Date` constructor); when no such day exists in that span it
returns `undefined` (`none`), not the string "none", and it never looks past
year end even though a Friday the 13th may occur within one year. -/
theorem getNextFridayThe13th_year_end_scan (z : Int) :
    (∀ r, getNextFridayThe13th z = some r →
      ∃ i : Int, z ≤ i ∧ i ≤ jsMakeDay (yearOfDay z + 1) 0 0 ∧
        getDay i = 5 ∧ domOfDay i = 13 ∧
        (∀ j : Int, z ≤ j → j < i → ¬(getDay j = 5 ∧ domOfDay j = 13)) ∧
        r = jsMakeDay (yearOfDay i) (monthOfDay i - 1) (domOfDay i)) ∧
    (getNextFridayThe13th z = none →
      ∀ j : Int, z ≤ j → j ≤ jsMakeDay (yearOfDay z + 1) 0 0 →
        ¬(getDay j = 5 ∧ domOfDay j = 13)) := by
  obtain ⟨hsome, hnone⟩ :=
    getNextFridayThe13thAux_spec ((jsMakeDay (yearOfDay z + 1) 0 0 - z + 1).toNat) z
  constructor
  · intro r hr
    obtain ⟨k, hk, h5, h13, hmin, hre⟩ := hsome r hr
    refine ⟨z + k, by omega, by omega, h5, h13, ?_, hre⟩
    intro j hj1 hj2 hcontra
    have h2 := hmin ((j - z).toNat) (by omega)
    have e : z + (((j - z).toNat : Nat) : Int) = j := by omega
    rw [e] at h2
    exact h2 hcontra
  · intro hn j hj1 hj2 hcontra
    have h2 := hnone hn ((j - z).toNat) (by omega)
    have e : z + (((j - z).toNat : Nat) : Int) = j := by omega
    rw [e] at h2
    exact h2 hcontra

/-- C2 (counterexample): starting from 2024-12-14 the claim requires the
scan to reach one year ahead and find Friday 2025-06-13 (the 13th of June
2025, a Friday, 181 days later); the code stops at 2024-12-31 and returns
`undefined` (`none`), never the string "none". -/
theorem getNextFridayThe13th_cex :
    getNextFridayThe13th (daysFromCivil 2024 12 14) = none ∧
    getDay (daysFromCivil 2025 6 13) = 5 ∧
    domOfDay (daysFromCivil 2025 6 13) = 13 ∧
    daysFromCivil 2025 6 13 - daysFromCivil 2024 12 14 ≤ 365 := by
  refine ⟨by decide, by decide, by decide, by decide⟩

/-- C7: `getNextFriday`, on the date with components year `y`, month index
`mo`, day of month `d` and time of day `t`, returns a day strictly after the
input day, at most 7 days after it, whose weekday is Friday, with no Friday
strictly between; when the input day is itself a Friday the result is the
Friday 7 days later. -/
theorem getNextFriday_spec (y mo d : Int) (t : Nat)
    (hmo0 : 0 ≤ mo) (hmo1 : mo ≤ 11) (ht : t < 86400000) :
    getDay (getNextFriday y mo d t) = 5 ∧
    daysFromCivil y (mo + 1) d < getNextFriday y mo d t ∧
    getNextFriday y mo d t ≤ daysFromCivil y (mo + 1) d + 7 ∧
    (∀ j : Int, daysFromCivil y (mo + 1) d < j → j < getNextFriday y mo d t →
      getDay j ≠ 5) ∧
    (getDay (daysFromCivil y (mo + 1) d) = 5 →
      getNextFriday y mo d t = daysFromCivil y (mo + 1) d + 7) := by
  have hb := jsMakeDay_plus7_le y mo d hmo0 hmo1
  have hmain : getNextFriday y mo d t = daysFromCivil y (mo + 1) d +
      fridayOffset (daysFromCivil y (mo + 1) d) :=
    getNextFridayAux_main (daysFromCivil y (mo + 1) d) (jsMakeDay y mo (d + 7)) t ht hb
  rw [hmain]
  have hfz := fridayOffset_facts (daysFromCivil y (mo + 1) d)
  simp only [getDay] at hfz ⊢
  refine ⟨by omega, by omega, by omega, ?_, by omega⟩
  intro j hj1 hj2
  omega

/-- C7 witness: from 2024-02-03 (a Saturday, month index 1) at midnight, the
returned day is a Friday strictly later, within 7 days, with no Friday
skipped. -/
theorem getNextFriday_spec_witness :
    getDay (getNextFriday 2024 1 3 0) = 5 ∧
    daysFromCivil 2024 (1 + 1) 3 < getNextFriday 2024 1 3 0 ∧
    getNextFriday 2024 1 3 0 ≤ daysFromCivil 2024 (1 + 1) 3 + 7 ∧
    (∀ j : Int, daysFromCivil 2024 (1 + 1) 3 < j → j < getNextFriday 2024 1 3 0 →
      getDay j ≠ 5) ∧
    (getDay (daysFromCivil 2024 (1 + 1) 3) = 5 →
      getNextFriday 2024 1 3 0 = daysFromCivil 2024 (1 + 1) 3 + 7) :=
  getNextFriday_spec 2024 1 3 0 (by norm_num) (by norm_num) (by norm_num)

/-- C5: `isLeapYear` returns true exactly when the year is divisible by 4,
the simplified rule with no century/400 exception; in particular year 1900
yields true. -/
theorem isLeapYear_divisible_by_four :
    (∀ y : Int, isLeapYear y = true ↔ (4 : Int) ∣ y) ∧ isLeapYear 1900 = true := by
  constructor
  · intro y
    simp only [isLeapYear, beq_iff_eq]
    omega
  · rfl

/-- C1 (the code contradicts the claim): the claim says `isDateInPeriod`
returns true iff `start ≤ date ≤ end` at day granularity. For
`date = '2024-02-01'`, `start = '2024-01-31'`, `end = '2024-03-01'` the date
lies inside the period (the day numbers are ordered), yet the function
returns false: the 1-based month is passed to the `Date` constructor as a
0-based index, and the normalization of the shifted start (`Feb 31` becomes
`Mar 2`) overtakes the shifted date (`Mar 1`). -/
theorem isDateInPeriod_month_shift_bug :
    isDateInPeriod (2024, 2, 1) (2024, 1, 31) (2024, 3, 1) = false ∧
    daysFromCivil 2024 1 31 ≤ daysFromCivil 2024 2 1 ∧
    daysFromCivil 2024 2 1 ≤ daysFromCivil 2024 3 1 := by
  refine ⟨by decide, by decide, by decide⟩

/-- C3 (the code contradicts the claim): at UTC time 00:09:09 the claim
requires `'1/1/2024, 12:09:09 AM'` (hour 0 shown as 12, minute and second
zero-padded), and at 12:00:00 it requires `'1/1/2024, 12:00:00 PM'`; the
code prints hour 0 as `0`, leaves minute/second 9 unpadded (its ternary
tests `>= 9`), and prints hour 12 as `0` (the hour-12 branch guard is
minute-dependent). -/
theorem formatDate_defects :
    formatDate 2024 1 1 0 9 9 = "1/1/2024, 0:9:9 AM" ∧
    formatDate 2024 1 1 12 0 0 = "1/1/2024, 0:00:00 PM" := by
  refine ⟨rfl, rfl⟩

/-- C9 (counterexample): the claim says the branch of `formatDate` that
prints the PM hour unadjusted is never taken, but its guard is satisfied at
UTC hour 12, minute 59 (any second): `formatDate` then prints the hour as
`12`, not `0`. -/
theorem formatDateLiteralGuard_reachable :
    formatDateLiteralGuard 12 59 = true ∧
    formatDate 2024 1 1 12 59 7 = "1/1/2024, 12:59:07 PM" := by
  refine ⟨rfl, rfl⟩

/-- C9 (amended): the branch of `formatDate` that prints the PM hour
unadjusted is reachable; it is taken exactly when the UTC hour is 12 and the
UTC minute is 59 (the seconds are unconstrained, because the source's third
conjunct re-compares the minutes). -/
theorem formatDateLiteralGuard_iff :
    ∀ h mi : Nat, formatDateLiteralGuard h mi = true ↔ h = 12 ∧ mi = 59 := by
  intro h mi
  simp [formatDateLiteralGuard]

end CoreJsDates
